import Mathlib

/-
Verification development for the kilo-style terminal editor (src/kilo.c).
The C program is shallowly embedded: machine `int`s become `Int`, byte
sequences become `List Nat` (each element a byte value in [0, 255]),
`char` values carry the signed-char reinterpretation of the byte that was
read (the default `char` signedness on the x86-64 Linux targets this
program is built for), and reads from standard input become explicit
input lists where a `none` entry stands for a `read` call that did not
return exactly one byte (timeout or error).
-/

namespace Kilo

/-- Key token constants, from the `editorKey` enum in src/kilo.c
(ARROW_LEFT = 1000 and the rest follow in declaration order). -/
def ARROW_LEFT : Int := 1000

def ARROW_RIGHT : Int := 1001

def ARROW_UP : Int := 1002

def ARROW_DOWN : Int := 1003

def DEL_KEY : Int := 1004

def HOME_KEY : Int := 1005

def END_KEY : Int := 1006

def PAGE_UP : Int := 1007

def PAGE_DOWN : Int := 1008

/-- Value of a byte after being stored in a C `char` and widened back to
`int`: bytes below 0x80 are unchanged, bytes 0x80..0xFF are sign-extended
to negative values (signed `char`, the default on x86-64 Linux). -/
def asChar (b : Nat) : Int :=
  if b % 256 < 128 then ((b % 256 : Nat) : Int) else ((b % 256 : Nat) : Int) - 256

/-- One row of text, from `struct editorRow` in src/kilo.c: a length field
and the bytes of the line. -/
structure ERow where
  size : Int
  chars : List Nat
deriving DecidableEq, Repr

/-- The editor state, from `struct editorConfig` in src/kilo.c, fields in
declaration order: cursor position, terminal dimensions, row count, rows,
and the saved terminal attributes (modelled as an opaque numeric code). -/
structure EditorConfig where
  cx : Int
  cy : Int
  screencols : Int
  screenrows : Int
  numRows : Int
  row : List ERow
  originalTermios : Nat
deriving DecidableEq, Repr

/-- The input decoder `editorReadKey` (src/kilo.c lines 185-285). `b` is
the byte delivered by the first (blocking, retried-on-timeout) read; `rest`
models the outcome of each subsequent non-blocking read in order, `none`
meaning that read returned something other than exactly one byte. Returns
the C `int` result: a pass-through `char` value or a token constant. -/
def editorReadKey (b : Nat) (rest : List (Option Nat)) : Int :=
  let c := asChar b
  if c = 27 then
    match rest with
    | [] => 27
    | none :: _ => 27
    | some b0 :: r1 =>
      match r1 with
      | [] => 27
      | none :: _ => 27
      | some b1 :: r2 =>
        let s0 := asChar b0
        let s1 := asChar b1
        if s0 = 91 then
          if 48 ≤ s1 ∧ s1 ≤ 57 then
            match r2 with
            | [] => 27
            | none :: _ => 27
            | some b2 :: _ =>
              let s2 := asChar b2
              if s2 = 126 then
                if s1 = 49 then HOME_KEY
                else if s1 = 51 then DEL_KEY
                else if s1 = 52 then END_KEY
                else if s1 = 53 then PAGE_UP
                else if s1 = 54 then PAGE_DOWN
                else if s1 = 55 then HOME_KEY
                else if s1 = 56 then END_KEY
                else 27
              else 27
          else
            if s1 = 65 then ARROW_UP
            else if s1 = 66 then ARROW_DOWN
            else if s1 = 67 then ARROW_RIGHT
            else if s1 = 68 then ARROW_LEFT
            else if s1 = 70 then END_KEY
            else if s1 = 72 then HOME_KEY
            else 27
        else if s0 = 79 then
          if s1 = 70 then END_KEY
          else if s1 = 72 then HOME_KEY
          else 27
        else 27
  else c

/-- The cursor-motion handler `editorMoveCursor` (src/kilo.c lines
575-598): each arrow moves the cursor one cell, clamped by the guards in
the source (`cx != 0`, `cx != screencols - 1`, and so on). -/
def editorMoveCursor (cfg : EditorConfig) (key : Int) : EditorConfig :=
  if key = ARROW_LEFT then
    if cfg.cx ≠ 0 then { cfg with cx := cfg.cx - 1 } else cfg
  else if key = ARROW_RIGHT then
    if cfg.cx ≠ cfg.screencols - 1 then { cfg with cx := cfg.cx + 1 } else cfg
  else if key = ARROW_UP then
    if cfg.cy ≠ 0 then { cfg with cy := cfg.cy - 1 } else cfg
  else if key = ARROW_DOWN then
    if cfg.cy ≠ cfg.screenrows - 1 then { cfg with cy := cfg.cy + 1 } else cfg
  else cfg

/-- The keystroke dispatcher `editorProcessKeypress` (src/kilo.c lines
601-639) applied to one decoded token `c`. `none` models the `exit(0)`
taken on Ctrl-Q (`CTRL_KEY` of `q` = 0x11 = 17); all other tokens produce
the updated state. The PAGE branch runs `screenrows` iterations of the
one-step move, exactly as the `while (times--)` loop does. -/
def editorProcessKeypress (cfg : EditorConfig) (c : Int) : Option EditorConfig :=
  if c = 17 then none
  else if c = HOME_KEY then some { cfg with cx := 0 }
  else if c = END_KEY then some { cfg with cx := cfg.screencols - 1 }
  else if c = PAGE_UP ∨ c = PAGE_DOWN then
    some (Nat.iterate
      (fun s => editorMoveCursor s (if c = PAGE_UP then ARROW_UP else ARROW_DOWN))
      cfg.screenrows.toNat cfg)
  else if c = ARROW_UP ∨ c = ARROW_DOWN ∨ c = ARROW_LEFT ∨ c = ARROW_RIGHT then
    some (editorMoveCursor cfg c)
  else some cfg

/-- Iterated keystroke processing: the keystroke-consuming part of the
`while(1)` loop in `main` (src/kilo.c lines 671-676), one decoded token
per tick; `none` means the session ended via the Ctrl-Q `exit(0)`. -/
def processKeys (cfg : EditorConfig) : List Int → Option EditorConfig
  | [] => some cfg
  | k :: ks =>
    match editorProcessKeypress cfg k with
    | none => none
    | some cfg2 => processKeys cfg2 ks

/-- The cursor-bounds invariant stated in the data model: the cursor lies
inside the viewport `[0, screencols-1] × [0, screenrows-1]`. -/
def CursorInView (cfg : EditorConfig) : Prop :=
  0 ≤ cfg.cx ∧ cfg.cx ≤ cfg.screencols - 1 ∧
    0 ≤ cfg.cy ∧ cfg.cy ≤ cfg.screenrows - 1

/-- Bytes of the welcome banner text written by the `snprintf` at
src/kilo.c line 468: the format string with `KILO_VERSION` substituted.
Its length (28) is below the 80-byte buffer, so `snprintf` truncates
nothing and returns 28. -/
def welcomeBytes : List Nat :=
  ("Kilo editor -- version " ++ "0.0.1").toList.map Char.toNat

/-- The three bytes of the erase-in-line sequence `ESC [ K` appended after
every row payload (src/kilo.c line 509). -/
def ESCK : List Nat := [27, 91, 75]

/-- The two bytes of the `\r\n` separator appended between rows
(src/kilo.c line 514). -/
def CRLF : List Nat := [13, 10]

/-- The welcome-banner branch of `editorDrawRows` (src/kilo.c lines
466-493): clamp the banner length to the window width, compute the left
padding, emit a tilde in the first padding position when the padding is
nonzero, fill the rest of the padding with spaces, then the banner. -/
def welcomeLine (cfg : EditorConfig) : List Nat :=
  let wl : Int := (welcomeBytes.length : Int)
  let wl := if wl > cfg.screencols then cfg.screencols else wl
  let padding := (cfg.screencols - wl) / 2
  (if padding ≠ 0 then 126 :: List.replicate (padding - 1).toNat 32 else [])
    ++ welcomeBytes.take wl.toNat

/-- The payload of screen row `y` produced by one iteration of the loop in
`editorDrawRows` (src/kilo.c lines 462-505), before the `ESC [ K` that
follows it: a file row truncated to the window width, the welcome banner
(only when no file is loaded and `y` is at one third of the height), or a
single tilde. Row lookup uses the stored row list; an out-of-range index
yields the empty row (the C program would read unowned memory there, which
the invariant `numRows = row.length` rules out). -/
def rowPayload (cfg : EditorConfig) (y : Nat) : List Nat :=
  if (y : Int) ≥ cfg.numRows then
    if cfg.numRows = 0 ∧ (y : Int) = cfg.screenrows / 3 then welcomeLine cfg
    else [126]
  else
    let r := cfg.row.getD y ⟨0, []⟩
    let len := if r.size > cfg.screencols then cfg.screencols else r.size
    r.chars.take len.toNat

/-- Screen row `y` as it lands in the append buffer: the payload followed
by the erase-in-line sequence (src/kilo.c lines 462-509). -/
def screenRow (cfg : EditorConfig) (y : Nat) : List Nat :=
  rowPayload cfg y ++ ESCK

/-- The tail of the `editorDrawRows` loop starting at row index `y` with
`fuel` rows left to draw (`fuel` = `screenrows - y` at every call): each
iteration appends the payload, then `ESC [ K`, then `\r\n` unless this is
the last row (`y < screenrows - 1` in the source, equivalently
`fuel ≠ 1`). -/
def drawRowsAux (cfg : EditorConfig) (y : Nat) : Nat → List Nat
  | 0 => []
  | fuel + 1 =>
    rowPayload cfg y ++ ESCK ++ (if fuel = 0 then [] else CRLF)
      ++ drawRowsAux cfg (y + 1) fuel

/-- The full output of one `editorDrawRows` call (src/kilo.c lines
459-517): the loop body run for `y = 0 .. screenrows-1`. -/
def editorDrawRows (cfg : EditorConfig) : List Nat :=
  drawRowsAux cfg 0 cfg.screenrows.toNat

/-- Splitting a byte stream the way repeated `getline` calls do in
`editorOpen` (src/kilo.c line 399): each returned line runs up to and
including a `\n` byte; a final unterminated chunk is returned as-is; an
empty stream yields no lines. -/
def getLines : List Nat → List (List Nat)
  | [] => []
  | b :: bs =>
    if b = 10 then [10] :: getLines bs
    else
      match getLines bs with
      | [] => [[b]]
      | l :: ls => (b :: l) :: ls

/-- The trailing-newline strip loop of `editorOpen` (src/kilo.c lines
401-403): drop trailing bytes while the last remaining byte is `\n` or
`\r`, in any combination, until neither remains. -/
def stripCrLf (l : List Nat) : List Nat :=
  (l.reverse.dropWhile (fun b => b == 10 || b == 13)).reverse

/-- The row-store append `editorAppendRow` (src/kilo.c lines 357-376):
copy the given bytes into a fresh row whose size is the byte count, append
it after the existing rows, and increment `numRows`. -/
def editorAppendRow (cfg : EditorConfig) (s : List Nat) : EditorConfig :=
  { cfg with
    row := cfg.row ++ [⟨(s.length : Int), s⟩]
    numRows := cfg.numRows + 1 }

/-- The file loader `editorOpen` (src/kilo.c lines 380-414) applied to the
byte contents of the named file: every `getline` result is stripped of
trailing `\n`/`\r` and appended to the row store in order. -/
def editorOpen (cfg : EditorConfig) (file : List Nat) : EditorConfig :=
  (getLines file).foldl (fun c l => editorAppendRow c (stripCrLf l)) cfg

/-- Environment of one window-size discovery: the result the `TIOCGWINSZ`
ioctl would report (`none` for a -1 return, otherwise the `ws_row` and
`ws_col` unsigned-short fields), and the bytes available on standard input
for the cursor-position-report fallback. -/
structure WinEnv where
  ioctlResult : Option (Nat × Nat)
  replyInput : List Nat
deriving DecidableEq, Repr

/-- The `%d` conversion performed by the `sscanf` call in
`getCursorPosition` (src/kilo.c line 322): skip leading whitespace (the C
locale's `isspace` set — space and the control characters tab through
carriage return), accept an optional `+` or `-` sign, then at least one
decimal digit, stopping at the first non-digit; returns the converted
value and the unconsumed rest, or `none` when no digit follows (a
conversion failure, making `sscanf` return fewer than two items). The
value is kept as an unbounded integer; out-of-range input, for which the
C conversion is undefined, is not modelled. -/
def scanInt (bs : List Nat) : Option (Int × List Nat) :=
  let ws := bs.dropWhile (fun b => decide (b = 32 ∨ (9 ≤ b ∧ b ≤ 13)))
  let p := match ws with
    | 43 :: r => (false, r)
    | 45 :: r => (true, r)
    | _ => (false, ws)
  let ds := p.2.takeWhile (fun b => decide (48 ≤ b ∧ b ≤ 57))
  if ds.isEmpty then none
  else
    let v : Int := ds.foldl (fun a b => a * 10 + ((b : Int) - 48)) 0
    some (if p.1 then -v else v, p.2.drop ds.length)

/-- The fallback size probe `getCursorPosition` (src/kilo.c lines
288-327): read the status-report reply up to 31 bytes, stopping before an
`R`; reject it unless it starts with `ESC [`; then extract two integers
separated by `;` with `sscanf`-style `%d` conversions. Returns the parsed
(rows, cols) or `none` for the -1 error return. No sign or positivity
check is applied to the parsed values, exactly as in the source. -/
def getCursorPosition (input : List Nat) : Option (Int × Int) :=
  let buf := (input.take 31).takeWhile (fun b => decide (b ≠ 82))
  if buf.getD 0 0 = 27 ∧ buf.getD 1 0 = 91 then
    match scanInt (buf.drop 2) with
    | none => none
    | some (r, rest) =>
      match rest with
      | 59 :: rest2 =>
        (match scanInt rest2 with
         | none => none
         | some (c, _) => some (r, c))
      | _ => none
  else none

/-- The window-size query `getWindowSize` (src/kilo.c lines 332-352): use
the ioctl result unless the call failed or reported zero columns, in which
case fall back to the cursor-position probe. Only `ws_col == 0` is
guarded; a reported `ws_row` of zero is accepted unchanged. -/
def getWindowSize (env : WinEnv) : Option (Int × Int) :=
  match env.ioctlResult with
  | some p =>
    if p.2 = 0 then getCursorPosition env.replyInput
    else some ((p.1 : Int), (p.2 : Int))
  | none => getCursorPosition env.replyInput

/-- The initializer `initEditor` (src/kilo.c lines 643-657): zero the
cursor and the row store, then store the discovered window size; `none`
models the `die` taken when `getWindowSize` fails. `t` is the terminal
attribute snapshot already captured by `enableRawMode`. -/
def initEditor (env : WinEnv) (t : Nat) : Option EditorConfig :=
  match getWindowSize env with
  | none => none
  | some rc => some ⟨0, 0, rc.2, rc.1, 0, [], t⟩

/-- Observable terminal/process state at the moment the process has
exited: the terminal attributes, the captured snapshot (if any), whether
the restore hook was registered, and the exit status. -/
structure TermTrace where
  attrs : Nat
  saved : Option Nat
  hooked : Bool
  exitCode : Nat
deriving DecidableEq, Repr

/-- The effect of `exit(code)`: the C runtime runs every handler
registered with `atexit`, so when `disableRawMode` (src/kilo.c lines
88-92) has been registered it writes the saved snapshot back with
`tcsetattr` before the process disappears. -/
def procExit (code : Nat) (attrs : Nat) (saved : Option Nat) (hooked : Bool) :
    TermTrace :=
  { attrs := if hooked then saved.getD attrs else attrs
    saved := saved
    hooked := hooked
    exitCode := code }

/-- The ways this program can terminate: `die` when the `tcgetattr`
snapshot itself fails (src/kilo.c line 101), `die` when the raw-mode
`tcsetattr` fails (line 179), any later `die` (read error, window-size
failure, `fopen` failure), or the Ctrl-Q `exit(0)` (line 615). The
`while(1)` loop in `main` never returns, so there is no other path. -/
inductive ExitPath
  | dieTcgetattr
  | dieTcsetattrRaw
  | dieLater
  | quitCtrlQ
deriving DecidableEq, Repr

/-- One whole process run of src/kilo.c as far as the terminal attributes
are concerned, following the statement order of `enableRawMode` (lines
99-182): snapshot via `tcgetattr`, register `disableRawMode` with
`atexit`, only then change the attributes to the raw set (`rawOf` of the
snapshot); afterwards the program either dies somewhere or quits on
Ctrl-Q, and every `exit` runs the registered hook. -/
def runKilo (rawOf : Nat → Nat) (initial : Nat) : ExitPath → TermTrace
  | .dieTcgetattr => procExit 1 initial none false
  | .dieTcsetattrRaw => procExit 1 initial (some initial) true
  | .dieLater => procExit 1 (rawOf initial) (some initial) true
  | .quitCtrlQ => procExit 0 (rawOf initial) (some initial) true

theorem moveCursor_fields (cfg : EditorConfig) (k : Int) :
    (editorMoveCursor cfg k).screencols = cfg.screencols ∧
      (editorMoveCursor cfg k).screenrows = cfg.screenrows ∧
      (editorMoveCursor cfg k).numRows = cfg.numRows ∧
      (editorMoveCursor cfg k).row = cfg.row ∧
      (editorMoveCursor cfg k).originalTermios = cfg.originalTermios := by
  unfold editorMoveCursor
  split_ifs <;> simp

theorem moveCursor_inview (cfg : EditorConfig) (k : Int)
    (h : CursorInView cfg) : CursorInView (editorMoveCursor cfg k) := by
  obtain ⟨h1, h2, h3, h4⟩ := h
  unfold CursorInView editorMoveCursor
  split_ifs <;> simp_all <;> omega

theorem iterate_moveCursor_fields (k : Int) (n : Nat) (cfg : EditorConfig) :
    ((Nat.iterate (fun s => editorMoveCursor s k) n cfg).screencols
        = cfg.screencols ∧
      (Nat.iterate (fun s => editorMoveCursor s k) n cfg).screenrows
        = cfg.screenrows ∧
      (Nat.iterate (fun s => editorMoveCursor s k) n cfg).numRows
        = cfg.numRows ∧
      (Nat.iterate (fun s => editorMoveCursor s k) n cfg).row = cfg.row ∧
      (Nat.iterate (fun s => editorMoveCursor s k) n cfg).originalTermios
        = cfg.originalTermios) := by
  induction n with
  | zero => simp
  | succ m ih =>
    rw [Function.iterate_succ_apply']
    have hf := moveCursor_fields (Nat.iterate (fun s => editorMoveCursor s k) m cfg) k
    exact ⟨hf.1.trans ih.1, hf.2.1.trans ih.2.1, hf.2.2.1.trans ih.2.2.1,
      hf.2.2.2.1.trans ih.2.2.2.1, hf.2.2.2.2.trans ih.2.2.2.2⟩

theorem iterate_moveCursor_inview (k : Int) (n : Nat) (cfg : EditorConfig)
    (h : CursorInView cfg) :
    CursorInView (Nat.iterate (fun s => editorMoveCursor s k) n cfg) := by
  induction n with
  | zero => simpa using h
  | succ m ih =>
    rw [Function.iterate_succ_apply']
    exact moveCursor_inview _ _ ih

theorem processKeypress_fields (cfg : EditorConfig) (c : Int)
    (cfg' : EditorConfig) (h : editorProcessKeypress cfg c = some cfg') :
    cfg'.screencols = cfg.screencols ∧ cfg'.screenrows = cfg.screenrows ∧
      cfg'.numRows = cfg.numRows ∧ cfg'.row = cfg.row ∧
      cfg'.originalTermios = cfg.originalTermios := by
  unfold editorProcessKeypress at h
  split_ifs at h <;> (injection h with h; subst h) <;>
    first
      | exact ⟨rfl, rfl, rfl, rfl, rfl⟩
      | exact iterate_moveCursor_fields _ _ _
      | exact moveCursor_fields _ _

theorem processKeypress_inview (cfg : EditorConfig) (c : Int)
    (cfg' : EditorConfig) (h : CursorInView cfg)
    (hp : editorProcessKeypress cfg c = some cfg') : CursorInView cfg' := by
  obtain ⟨h1, h2, h3, h4⟩ := h
  unfold editorProcessKeypress at hp
  split_ifs at hp <;> (injection hp with hp; subst hp) <;>
    first
      | exact ⟨h1, h2, h3, h4⟩
      | exact iterate_moveCursor_inview _ _ _ ⟨h1, h2, h3, h4⟩
      | exact moveCursor_inview _ _ ⟨h1, h2, h3, h4⟩
      | (unfold CursorInView; dsimp only; omega)

theorem processKeys_inview (ks : List Int) :
    ∀ cfg cfg' : EditorConfig, CursorInView cfg →
      processKeys cfg ks = some cfg' →
      CursorInView cfg' ∧ cfg'.screencols = cfg.screencols ∧
        cfg'.screenrows = cfg.screenrows := by
  induction ks with
  | nil =>
    intro cfg cfg' h hp
    simp only [processKeys, Option.some.injEq] at hp
    subst hp
    exact ⟨h, rfl, rfl⟩
  | cons k ks ih =>
    intro cfg cfg' h hp
    simp only [processKeys] at hp
    cases hk : editorProcessKeypress cfg k with
    | none => rw [hk] at hp; exact absurd hp (by simp)
    | some c2 =>
      rw [hk] at hp
      have h2 := processKeypress_inview cfg k c2 h hk
      have hf := processKeypress_fields cfg k c2 hk
      obtain ⟨hv, hc, hr⟩ := ih c2 cfg' h2 hp
      exact ⟨hv, hc.trans hf.1, hr.trans hf.2.1⟩

/-- C1: on every exit path of the program — the normal Ctrl-Q quit and
every fatal die path, including a die during raw-mode setup — the terminal
attributes at process exit equal the attributes the process started with,
and whenever a snapshot was captured in `originalTermios` it equals those
initial attributes; this holds because `atexit(disableRawMode)` is
registered immediately after the `tcgetattr` snapshot and before the
`tcsetattr` that changes the attributes. -/
theorem terminal_restored_on_every_exit (rawOf : Nat → Nat) (initial : Nat)
    (p : ExitPath) :
    (runKilo rawOf initial p).attrs = initial ∧
      ((runKilo rawOf initial p).saved = none ∨
        (runKilo rawOf initial p).saved = some initial) := by
  cases p <;> simp [runKilo, procExit]

/-- C2: starting from cursor (0,0) in a viewport with at least one column
and one row, after any sequence of decoded keystrokes that has not exited,
the cursor satisfies `0 ≤ cx ≤ screencols - 1` and
`0 ≤ cy ≤ screenrows - 1`; arrow moves are clamped at the viewport edges
and no keystroke path moves the cursor outside the viewport (the screen
dimensions themselves never change). -/
theorem cursor_stays_in_viewport (cfg0 : EditorConfig) (ks : List Int)
    (cfg' : EditorConfig) (hx : cfg0.cx = 0) (hy : cfg0.cy = 0)
    (hc : 1 ≤ cfg0.screencols) (hr : 1 ≤ cfg0.screenrows)
    (h : processKeys cfg0 ks = some cfg') :
    (0 ≤ cfg'.cx ∧ cfg'.cx ≤ cfg'.screencols - 1 ∧
        0 ≤ cfg'.cy ∧ cfg'.cy ≤ cfg'.screenrows - 1) ∧
      cfg'.screencols = cfg0.screencols ∧
      cfg'.screenrows = cfg0.screenrows := by
  have h0 : CursorInView cfg0 := by
    unfold CursorInView; omega
  obtain ⟨hv, hcc, hrr⟩ := processKeys_inview ks cfg0 cfg' h0 h
  exact ⟨hv, hcc, hrr⟩

theorem cursor_stays_in_viewport_witness :
    (0 ≤ (⟨1, 0, 80, 24, 0, [], 0⟩ : EditorConfig).cx ∧
        (⟨1, 0, 80, 24, 0, [], 0⟩ : EditorConfig).cx
          ≤ (⟨1, 0, 80, 24, 0, [], 0⟩ : EditorConfig).screencols - 1 ∧
        0 ≤ (⟨1, 0, 80, 24, 0, [], 0⟩ : EditorConfig).cy ∧
        (⟨1, 0, 80, 24, 0, [], 0⟩ : EditorConfig).cy
          ≤ (⟨1, 0, 80, 24, 0, [], 0⟩ : EditorConfig).screenrows - 1) ∧
      (⟨1, 0, 80, 24, 0, [], 0⟩ : EditorConfig).screencols
        = (⟨0, 0, 80, 24, 0, [], 0⟩ : EditorConfig).screencols ∧
      (⟨1, 0, 80, 24, 0, [], 0⟩ : EditorConfig).screenrows
        = (⟨0, 0, 80, 24, 0, [], 0⟩ : EditorConfig).screenrows :=
  cursor_stays_in_viewport ⟨0, 0, 80, 24, 0, [], 0⟩ [ARROW_RIGHT]
    ⟨1, 0, 80, 24, 0, [], 0⟩ rfl rfl (by decide) (by decide) (by decide)

/-- C8: from any state whose cursor row is inside the viewport, one
PAGE_DOWN token sets `cy` to `screenrows - 1` and one PAGE_UP token sets
`cy` to 0, in each case by performing exactly `screenrows` single-row
clamped cursor moves (the `while (times--)` loop over `editorMoveCursor`)
rather than direct assignment; in particular PAGE_UP from `cy = 0` leaves
`cy = 0`. -/
theorem moveCursor_down_cy (s : EditorConfig) :
    (editorMoveCursor s ARROW_DOWN).cy
      = if s.cy = s.screenrows - 1 then s.cy else s.cy + 1 := by
  unfold editorMoveCursor
  norm_num [ARROW_DOWN, ARROW_LEFT, ARROW_RIGHT, ARROW_UP]
  split_ifs <;> simp_all

theorem moveCursor_up_cy (s : EditorConfig) :
    (editorMoveCursor s ARROW_UP).cy
      = if s.cy = 0 then s.cy else s.cy - 1 := by
  unfold editorMoveCursor
  norm_num [ARROW_DOWN, ARROW_LEFT, ARROW_RIGHT, ARROW_UP]
  split_ifs <;> simp_all

theorem page_keys_full_traversal (cfg : EditorConfig) (h0 : 0 ≤ cfg.cy)
    (h1 : cfg.cy ≤ cfg.screenrows - 1) :
    editorProcessKeypress cfg PAGE_DOWN
        = some (Nat.iterate (fun s => editorMoveCursor s ARROW_DOWN)
          cfg.screenrows.toNat cfg) ∧
      (∀ d, editorProcessKeypress cfg PAGE_DOWN = some d →
        d.cy = cfg.screenrows - 1) ∧
      editorProcessKeypress cfg PAGE_UP
        = some (Nat.iterate (fun s => editorMoveCursor s ARROW_UP)
          cfg.screenrows.toNat cfg) ∧
      (∀ u, editorProcessKeypress cfg PAGE_UP = some u → u.cy = 0) := by
  have hdown : editorProcessKeypress cfg PAGE_DOWN
      = some (Nat.iterate (fun s => editorMoveCursor s ARROW_DOWN)
        cfg.screenrows.toNat cfg) := by
    unfold editorProcessKeypress
    norm_num [PAGE_DOWN, PAGE_UP, HOME_KEY, END_KEY]
  have hup : editorProcessKeypress cfg PAGE_UP
      = some (Nat.iterate (fun s => editorMoveCursor s ARROW_UP)
        cfg.screenrows.toNat cfg) := by
    unfold editorProcessKeypress
    norm_num [PAGE_DOWN, PAGE_UP, HOME_KEY, END_KEY]
  have hdcy : ∀ n : Nat,
      (Nat.iterate (fun s => editorMoveCursor s ARROW_DOWN) n cfg).cy
        = min (cfg.cy + n) (cfg.screenrows - 1) := by
    intro n
    induction n with
    | zero => simp; omega
    | succ m ih =>
      have hrows := (iterate_moveCursor_fields ARROW_DOWN m cfg).2.1
      rw [Function.iterate_succ_apply', moveCursor_down_cy, hrows, ih]
      split_ifs <;> omega
  have hucy : ∀ n : Nat,
      (Nat.iterate (fun s => editorMoveCursor s ARROW_UP) n cfg).cy
        = max (cfg.cy - n) 0 := by
    intro n
    induction n with
    | zero => simp; omega
    | succ m ih =>
      rw [Function.iterate_succ_apply', moveCursor_up_cy, ih]
      split_ifs <;> omega
  refine ⟨hdown, ?_, hup, ?_⟩
  · intro d hd
    rw [hdown] at hd
    injection hd with hd
    subst hd
    rw [hdcy]
    omega
  · intro u hu
    rw [hup] at hu
    injection hu with hu
    subst hu
    rw [hucy]
    omega

theorem page_keys_full_traversal_witness :
    editorProcessKeypress ⟨0, 0, 80, 24, 0, [], 0⟩ PAGE_DOWN
        = some (Nat.iterate (fun s => editorMoveCursor s ARROW_DOWN)
          (⟨0, 0, 80, 24, 0, [], 0⟩ : EditorConfig).screenrows.toNat
          ⟨0, 0, 80, 24, 0, [], 0⟩) ∧
      (∀ d, editorProcessKeypress ⟨0, 0, 80, 24, 0, [], 0⟩ PAGE_DOWN = some d →
        d.cy = (⟨0, 0, 80, 24, 0, [], 0⟩ : EditorConfig).screenrows - 1) ∧
      editorProcessKeypress ⟨0, 0, 80, 24, 0, [], 0⟩ PAGE_UP
        = some (Nat.iterate (fun s => editorMoveCursor s ARROW_UP)
          (⟨0, 0, 80, 24, 0, [], 0⟩ : EditorConfig).screenrows.toNat
          ⟨0, 0, 80, 24, 0, [], 0⟩) ∧
      (∀ u, editorProcessKeypress ⟨0, 0, 80, 24, 0, [], 0⟩ PAGE_UP = some u →
        u.cy = 0) :=
  page_keys_full_traversal ⟨0, 0, 80, 24, 0, [], 0⟩ (by decide) (by decide)

theorem asChar_27 : asChar 27 = 27 := by decide

theorem asChar_91 : asChar 91 = 91 := by decide

theorem asChar_79 : asChar 79 = 79 := by decide

theorem asChar_ascii (d : Nat) (hd : d ≤ 127) : asChar d = (d : Int) := by
  unfold asChar
  rw [Nat.mod_eq_of_lt (by omega), if_pos (by omega)]

set_option maxHeartbeats 1000000 in
/-- C3: the escape-sequence decoder maps sequences to tokens exactly as
specified: `ESC [ d ~` with an ASCII digit `d` yields HOME for 1 and 7,
DEL for 3, END for 4 and 8, PAGE_UP for 5, PAGE_DOWN for 6, and the plain
ESC byte for any other digit; `ESC [` followed by a non-digit yields the
arrow tokens for A/B/C/D and END/HOME for F/H; `ESC O` yields END/HOME for
F/H; and every unmatched sequence shape — wrong introducer, unrecognized
letter, digit not closed by `~`, or a short read at any point — returns
the plain ESC byte 0x1b, so an ESC-initiated decode never produces any
value other than a semantic token or 27. -/
theorem escape_sequence_decoding :
    (∀ d : Nat, 48 ≤ d → d ≤ 57 →
      editorReadKey 27 [some 91, some d, some 126]
        = (if d = 49 ∨ d = 55 then HOME_KEY
           else if d = 51 then DEL_KEY
           else if d = 52 ∨ d = 56 then END_KEY
           else if d = 53 then PAGE_UP
           else if d = 54 then PAGE_DOWN
           else 27)) ∧
    editorReadKey 27 [some 91, some 65] = ARROW_UP ∧
    editorReadKey 27 [some 91, some 66] = ARROW_DOWN ∧
    editorReadKey 27 [some 91, some 67] = ARROW_RIGHT ∧
    editorReadKey 27 [some 91, some 68] = ARROW_LEFT ∧
    editorReadKey 27 [some 91, some 70] = END_KEY ∧
    editorReadKey 27 [some 91, some 72] = HOME_KEY ∧
    editorReadKey 27 [some 79, some 70] = END_KEY ∧
    editorReadKey 27 [some 79, some 72] = HOME_KEY ∧
    (∀ rest, editorReadKey 27 rest = 27 ∨
      (1000 ≤ editorReadKey 27 rest ∧ editorReadKey 27 rest ≤ 1008)) ∧
    (∀ b rest, asChar b ≠ 91 → asChar b ≠ 79 →
      editorReadKey 27 (some b :: rest) = 27) ∧
    (∀ b rest, ¬(48 ≤ asChar b ∧ asChar b ≤ 57) → asChar b ≠ 65 →
      asChar b ≠ 66 → asChar b ≠ 67 → asChar b ≠ 68 → asChar b ≠ 70 →
      asChar b ≠ 72 → editorReadKey 27 (some 91 :: some b :: rest) = 27) ∧
    (∀ b rest, asChar b ≠ 70 → asChar b ≠ 72 →
      editorReadKey 27 (some 79 :: some b :: rest) = 27) ∧
    (∀ d b rest, 48 ≤ d → d ≤ 57 → asChar b ≠ 126 →
      editorReadKey 27 (some 91 :: some d :: some b :: rest) = 27) ∧
    editorReadKey 27 [] = 27 ∧
    (∀ rest, editorReadKey 27 (none :: rest) = 27) ∧
    (∀ b rest, editorReadKey 27 (some b :: none :: rest) = 27) := by
  refine ⟨?_, by decide, by decide, by decide, by decide, by decide,
    by decide, by decide, by decide, ?_, ?_, ?_, ?_, ?_, by decide, ?_, ?_⟩
  · intro d hd1 hd2
    have hd : d = 48 ∨ d = 49 ∨ d = 50 ∨ d = 51 ∨ d = 52 ∨ d = 53 ∨ d = 54
        ∨ d = 55 ∨ d = 56 ∨ d = 57 := by omega
    rcases hd with rfl | rfl | rfl | rfl | rfl | rfl | rfl | rfl | rfl |
      rfl <;> decide
  · intro rest
    rcases rest with _ | ⟨_ | b0, r1⟩
    · simp [editorReadKey, asChar_27]
    · simp [editorReadKey, asChar_27]
    · rcases r1 with _ | ⟨_ | b1, r2⟩
      · simp [editorReadKey, asChar_27]
      · simp [editorReadKey, asChar_27]
      · rcases r2 with _ | ⟨_ | b2, r3⟩ <;>
          simp only [editorReadKey, asChar_27, reduceIte] <;>
          split_ifs <;>
          norm_num [HOME_KEY, END_KEY, DEL_KEY, PAGE_UP, PAGE_DOWN,
            ARROW_UP, ARROW_DOWN, ARROW_LEFT, ARROW_RIGHT]
  · intro b rest h91 h79
    rcases rest with _ | ⟨_ | b1, r2⟩
    · simp [editorReadKey, asChar_27]
    · simp [editorReadKey, asChar_27]
    · simp only [editorReadKey, asChar_27, reduceIte]
      rw [if_neg h91, if_neg h79]
  · intro b rest hdig h65 h66 h67 h68 h70 h72
    simp only [editorReadKey, asChar_27, asChar_91, reduceIte]
    rw [if_neg hdig, if_neg h65, if_neg h66, if_neg h67, if_neg h68,
      if_neg h70, if_neg h72]
  · intro b rest h70 h72
    simp only [editorReadKey, asChar_27, asChar_79, reduceIte]
    norm_num
    rw [if_neg h70, if_neg h72]
  · intro d b rest hd1 hd2 h126
    simp only [editorReadKey, asChar_27, asChar_91, reduceIte,
      asChar_ascii d (by omega)]
    rw [if_pos (by constructor <;> omega), if_neg h126]
  · intro rest
    simp [editorReadKey, asChar_27]
  · intro b rest
    simp [editorReadKey, asChar_27]

theorem escape_sequence_decoding_witness :
    editorReadKey 27 [some 91, some 51, some 126]
      = (if (51 : Nat) = 49 ∨ (51 : Nat) = 55 then HOME_KEY
         else if (51 : Nat) = 51 then DEL_KEY
         else if (51 : Nat) = 52 ∨ (51 : Nat) = 56 then END_KEY
         else if (51 : Nat) = 53 then PAGE_UP
         else if (51 : Nat) = 54 then PAGE_DOWN
         else 27) :=
  escape_sequence_decoding.1 51 (by decide) (by decide)

/-- C4 counterexample: the claim that every non-ESC byte is returned
unchanged as a value in [0, 255] fails for bytes with the high bit set:
the decoder reads into a C `char` (signed on the platforms this program
targets), so input byte 0xFF = 255 is returned as -1, not 255, and not in
[0, 255] at all. -/
theorem byte_passthrough_counterexample :
    editorReadKey 255 [] = -1 ∧ editorReadKey 255 [] ≠ 255 ∧
      ¬(0 ≤ editorReadKey 255 [] ∧ editorReadKey 255 [] ≤ 255) := by
  decide

/-- C4 amended: for every input byte `b` other than 0x1b the decoder
returns the signed-char reinterpretation of `b`: bytes 0x00..0x7F are
passed through unchanged, while bytes 0x80..0xFF are returned
sign-extended as `b - 256`, a negative value outside [0, 255]. -/
theorem byte_passthrough_signed_char (b : Nat) (rest : List (Option Nat))
    (hb : b ≤ 255) (hne : b ≠ 27) :
    editorReadKey b rest = asChar b ∧
      (b ≤ 127 → editorReadKey b rest = (b : Int)) ∧
      (128 ≤ b → editorReadKey b rest = (b : Int) - 256 ∧
        editorReadKey b rest < 0) := by
  have hmod : b % 256 = b := Nat.mod_eq_of_lt (by omega)
  have hch : asChar b ≠ 27 := by
    unfold asChar
    rw [hmod]
    split_ifs <;> omega
  have hek : editorReadKey b rest = asChar b := by
    simp only [editorReadKey]
    rw [if_neg hch]
  refine ⟨hek, ?_, ?_⟩
  · intro hsmall
    rw [hek]
    unfold asChar
    rw [hmod, if_pos (by omega)]
  · intro hbig
    rw [hek]
    unfold asChar
    rw [hmod, if_neg (by omega)]
    constructor
    · rfl
    · omega

theorem byte_passthrough_signed_char_witness :
    editorReadKey 200 [] = asChar 200 ∧
      (editorReadKey 200 [] = (200 : Int) - 256 ∧ editorReadKey 200 [] < 0) :=
  ⟨(byte_passthrough_signed_char 200 [] (by decide) (by decide)).1,
    (byte_passthrough_signed_char 200 [] (by decide) (by decide)).2.2
      (by decide)⟩

theorem intercalate_one (sep a : List Nat) : List.intercalate sep [a] = a := by
  simp [List.intercalate]

theorem intercalate_cons2 (sep a b : List Nat) (l : List (List Nat)) :
    List.intercalate sep (a :: b :: l)
      = a ++ sep ++ List.intercalate sep (b :: l) := by
  simp [List.intercalate, List.append_assoc]

theorem drawRowsAux_intercalate (cfg : EditorConfig) :
    ∀ m y : Nat, drawRowsAux cfg y m
      = List.intercalate CRLF ((List.range' y m).map (screenRow cfg)) := by
  intro m
  induction m with
  | zero => intro y; simp [drawRowsAux, List.intercalate]
  | succ k ih =>
    intro y
    cases k with
    | zero =>
      simp [drawRowsAux, List.range'_succ, intercalate_one, screenRow]
    | succ j =>
      rw [List.range'_succ, List.map_cons, List.range'_succ, List.map_cons,
        intercalate_cons2, ← List.map_cons, ← List.range'_succ, ← ih (y + 1)]
      simp [drawRowsAux, screenRow, List.append_assoc]

theorem welcomeLine_no_nl (cfg : EditorConfig) :
    (10 : Nat) ∉ welcomeLine cfg := by
  intro hmem
  simp only [welcomeLine] at hmem
  rcases List.mem_append.1 hmem with h | h
  · split_ifs at h <;> simp at h
  · have h2 := List.take_subset _ _ h
    revert h2
    decide

theorem rowPayload_no_nl (cfg : EditorConfig)
    (hrows : ∀ r ∈ cfg.row, (10 : Nat) ∉ r.chars) (y : Nat) :
    (10 : Nat) ∉ rowPayload cfg y := by
  unfold rowPayload
  split_ifs with h1 h2
  · exact welcomeLine_no_nl cfg
  · decide
  · intro hmem
    have h2' := List.take_subset _ _ hmem
    rw [List.getD_eq_getElem?_getD] at h2'
    cases hg : cfg.row[y]? with
    | none => rw [hg] at h2'; simp at h2'
    | some r =>
      rw [hg] at h2'
      obtain ⟨hlen, hget⟩ := List.getElem?_eq_some.1 hg
      exact hrows r (hget ▸ List.getElem_mem hlen) (by simpa using h2')

theorem count_nl_intercalate : ∀ ps : List (List Nat), ps ≠ [] →
    (∀ p ∈ ps, (10 : Nat) ∉ p) →
    (List.intercalate CRLF ps).count 10 = ps.length - 1 := by
  intro ps
  induction ps with
  | nil => intro h; exact absurd rfl h
  | cons p rest ih =>
    intro _ hmem
    cases rest with
    | nil =>
      rw [intercalate_one]
      simp [List.count_eq_zero.2 (hmem p (by simp))]
    | cons q l =>
      rw [intercalate_cons2, List.count_append, List.count_append]
      rw [List.count_eq_zero.2 (hmem p (by simp))]
      rw [ih (by simp) (fun x hx => hmem x (by simp [hx]))]
      have hc : CRLF.count 10 = 1 := by decide
      rw [hc]
      simp
      omega

theorem suffix_intercalate : ∀ ps : List (List Nat), ps ≠ [] →
    (∀ p ∈ ps, ESCK <:+ p) → ESCK <:+ List.intercalate CRLF ps := by
  intro ps
  induction ps with
  | nil => intro h; exact absurd rfl h
  | cons p rest ih =>
    intro _ hsuf
    cases rest with
    | nil =>
      rw [intercalate_one]
      exact hsuf p (by simp)
    | cons q l =>
      rw [intercalate_cons2]
      obtain ⟨u, hu⟩ := ih (by simp) (fun x hx => hsuf x (by simp [hx]))
      exact ⟨p ++ CRLF ++ u, by rw [← hu]; simp [List.append_assoc]⟩

/-- C6: for every editor state with at least one screen row whose stored
rows contain no newline byte (as all loaded rows do), the byte sequence of
one `editorDrawRows` call is exactly `screenrows` row payloads, each
ending with the erase-in-line sequence `ESC [ K`, joined by exactly one
`\r\n` between consecutive payloads; there are exactly `screenrows - 1`
separators (counted by their `\n` byte, which occurs nowhere else) and no
separator after the last payload, whose `ESC [ K` ends the frame. -/
theorem frame_row_structure (cfg : EditorConfig) (h1 : 1 ≤ cfg.screenrows)
    (hrows : ∀ r ∈ cfg.row, (10 : Nat) ∉ r.chars) :
    ∃ ps : List (List Nat),
      ps.length = cfg.screenrows.toNat ∧
      (∀ p ∈ ps, ESCK <:+ p ∧ (10 : Nat) ∉ p) ∧
      editorDrawRows cfg = List.intercalate CRLF ps ∧
      (editorDrawRows cfg).count 10 = cfg.screenrows.toNat - 1 ∧
      ESCK <:+ editorDrawRows cfg := by
  have hne : (List.range' 0 cfg.screenrows.toNat).map (screenRow cfg) ≠ [] := by
    have : 1 ≤ cfg.screenrows.toNat := by omega
    simp [List.length_range']
    omega
  have heq : editorDrawRows cfg
      = List.intercalate CRLF
        ((List.range' 0 cfg.screenrows.toNat).map (screenRow cfg)) :=
    drawRowsAux_intercalate cfg cfg.screenrows.toNat 0
  have hprop : ∀ p ∈ (List.range' 0 cfg.screenrows.toNat).map (screenRow cfg),
      ESCK <:+ p ∧ (10 : Nat) ∉ p := by
    intro p hp
    obtain ⟨y, _, rfl⟩ := List.mem_map.1 hp
    refine ⟨⟨rowPayload cfg y, rfl⟩, ?_⟩
    intro hmem
    rcases List.mem_append.1 hmem with h | h
    · exact rowPayload_no_nl cfg hrows y h
    · exact absurd h (by decide)
  refine ⟨(List.range' 0 cfg.screenrows.toNat).map (screenRow cfg),
    by simp [List.length_range'], hprop, heq, ?_, ?_⟩
  · rw [heq, count_nl_intercalate _ hne (fun p hp => (hprop p hp).2)]
    simp [List.length_range']
  · rw [heq]
    exact suffix_intercalate _ hne (fun p hp => (hprop p hp).1)

theorem frame_row_structure_witness :
    ∃ ps : List (List Nat),
      ps.length = (⟨0, 0, 10, 3, 0, [], 0⟩ : EditorConfig).screenrows.toNat ∧
      (∀ p ∈ ps, ESCK <:+ p ∧ (10 : Nat) ∉ p) ∧
      editorDrawRows ⟨0, 0, 10, 3, 0, [], 0⟩ = List.intercalate CRLF ps ∧
      (editorDrawRows ⟨0, 0, 10, 3, 0, [], 0⟩).count 10
        = (⟨0, 0, 10, 3, 0, [], 0⟩ : EditorConfig).screenrows.toNat - 1 ∧
      ESCK <:+ editorDrawRows ⟨0, 0, 10, 3, 0, [], 0⟩ :=
  frame_row_structure ⟨0, 0, 10, 3, 0, [], 0⟩ (by decide) (by simp)

/-- C5 counterexample: with 24 rows, 80 columns and no file loaded, screen
row 8 of the rendered frame is NOT a tilde followed by 27 spaces followed
by the banner: the padding is floor((80 - 28) / 2) = 26 positions, the
first of which is the tilde, so only 25 spaces follow it. The first
conjunct ties the payload list to the actual frame bytes. -/
theorem welcome_row_counterexample :
    editorDrawRows ⟨0, 0, 80, 24, 0, [], 0⟩
        = List.intercalate CRLF
          ((List.range' 0 24).map (screenRow ⟨0, 0, 80, 24, 0, [], 0⟩)) ∧
      ((List.range' 0 24).map (screenRow ⟨0, 0, 80, 24, 0, [], 0⟩)).getD 8 []
        ≠ [126] ++ List.replicate 27 32 ++ welcomeBytes ++ ESCK := by
  constructor
  · exact drawRowsAux_intercalate ⟨0, 0, 80, 24, 0, [], 0⟩ 24 0
  · decide

/-- C5 amended: with 24 rows, 80 columns and no file loaded, screen row 8
(row floor(24/3)) of the rendered frame consists of a tilde, then 25
spaces, then `Kilo editor -- version 0.0.1` (28 bytes), then `ESC [ K`:
the leading padding is floor((80 - 28) / 2) = 26 positions whose first
position is the tilde. -/
theorem welcome_row_amended :
    editorDrawRows ⟨0, 0, 80, 24, 0, [], 0⟩
        = List.intercalate CRLF
          ((List.range' 0 24).map (screenRow ⟨0, 0, 80, 24, 0, [], 0⟩)) ∧
      ((List.range' 0 24).map (screenRow ⟨0, 0, 80, 24, 0, [], 0⟩)).getD 8 []
        = [126] ++ List.replicate 25 32 ++ welcomeBytes ++ ESCK ∧
      welcomeBytes.length = 28 ∧
      ((80 - 28 : Int)) / 2 = 26 ∧
      (8 : Nat) = 24 / 3 := by
  refine ⟨drawRowsAux_intercalate ⟨0, 0, 80, 24, 0, [], 0⟩ 24 0,
    by decide, by decide, by decide, by decide⟩

theorem open_foldl (ls : List (List Nat)) :
    ∀ cfg : EditorConfig,
      (ls.foldl (fun c l => editorAppendRow c (stripCrLf l)) cfg).row
          = cfg.row
            ++ ls.map (fun l => (⟨((stripCrLf l).length : Int), stripCrLf l⟩ : ERow)) ∧
        (ls.foldl (fun c l => editorAppendRow c (stripCrLf l)) cfg).numRows
          = cfg.numRows + ls.length ∧
        (ls.foldl (fun c l => editorAppendRow c (stripCrLf l)) cfg).screencols
          = cfg.screencols ∧
        (ls.foldl (fun c l => editorAppendRow c (stripCrLf l)) cfg).screenrows
          = cfg.screenrows := by
  induction ls with
  | nil => intro cfg; simp
  | cons l ls ih =>
    intro cfg
    simp only [List.foldl_cons, List.map_cons, List.length_cons]
    obtain ⟨h1, h2, h3, h4⟩ := ih (editorAppendRow cfg (stripCrLf l))
    refine ⟨?_, ?_, ?_, ?_⟩
    · rw [h1]; simp [editorAppendRow]
    · rw [h2]; simp [editorAppendRow]; ring
    · rw [h3]; simp [editorAppendRow]
    · rw [h4]; simp [editorAppendRow]

/-- C7: round trip of the loader and the renderer. After `editorOpen` on
a file's bytes, the stored rows are exactly the `getline` lines of the
file with all trailing `\n` and `\r` bytes stripped (in any combination,
until neither remains); the row count equals the line count; the rendered
frame is the `\r\n`-joined payload list; and when `screencols` is at least
every stripped line's length, the visible text payload of each screen row
`y < numRows` (within the screen) is byte-equal to the stripped line `y`. -/
theorem load_render_roundtrip (cfg0 : EditorConfig) (file : List Nat)
    (h0 : cfg0.numRows = 0) (hrow : cfg0.row = []) :
    (editorOpen cfg0 file).row.map ERow.chars
        = (getLines file).map stripCrLf ∧
      (editorOpen cfg0 file).numRows = ((getLines file).length : Int) ∧
      editorDrawRows (editorOpen cfg0 file)
        = List.intercalate CRLF
          ((List.range' 0 (editorOpen cfg0 file).screenrows.toNat).map
            (screenRow (editorOpen cfg0 file))) ∧
      ∀ y : Nat, (y : Int) < (editorOpen cfg0 file).numRows →
        (y : Int) < cfg0.screenrows →
        (∀ l ∈ getLines file,
          ((stripCrLf l).length : Int) ≤ cfg0.screencols) →
        rowPayload (editorOpen cfg0 file) y
          = ((getLines file).map stripCrLf).getD y [] := by
  obtain ⟨h1, h2, h3, h4⟩ := open_foldl (getLines file) cfg0
  have hrowval : (editorOpen cfg0 file).row
      = (getLines file).map
        (fun l => (⟨((stripCrLf l).length : Int), stripCrLf l⟩ : ERow)) := by
    rw [show (editorOpen cfg0 file).row = _ from h1, hrow]
    simp
  have hnum : (editorOpen cfg0 file).numRows
      = ((getLines file).length : Int) := by
    rw [show (editorOpen cfg0 file).numRows = _ from h2, h0]
    simp
  have hcols : (editorOpen cfg0 file).screencols = cfg0.screencols := h3
  refine ⟨?_, hnum, drawRowsAux_intercalate _ _ 0, ?_⟩
  · rw [hrowval, List.map_map]
    rfl
  · intro y hy hscreen hwide
    have hylen : y < (getLines file).length := by
      rw [hnum] at hy
      omega
    have hy2 : y < ((getLines file).map
        (fun l => (⟨((stripCrLf l).length : Int), stripCrLf l⟩ : ERow))).length := by
      simpa using hylen
    have hy3 : y < ((getLines file).map stripCrLf).length := by
      simpa using hylen
    have hmem : (getLines file)[y] ∈ getLines file := List.getElem_mem hylen
    have hle := hwide _ hmem
    unfold rowPayload
    rw [if_neg (by rw [hnum]; omega)]
    rw [hrowval, List.getD_eq_getElem _ _ hy2, List.getElem_map]
    rw [List.getD_eq_getElem _ _ hy3, List.getElem_map]
    dsimp only
    rw [if_neg (by rw [hcols]; omega)]
    rw [Int.toNat_natCast, List.take_length]

theorem load_render_roundtrip_witness :
    rowPayload (editorOpen ⟨0, 0, 80, 24, 0, [], 0⟩
        [104, 101, 108, 108, 111, 10]) 0
      = ((getLines [104, 101, 108, 108, 111, 10]).map stripCrLf).getD 0 [] ∧
    (editorOpen ⟨0, 0, 80, 24, 0, [], 0⟩
        [104, 101, 108, 108, 111, 10]).row.map ERow.chars
      = (getLines [104, 101, 108, 108, 111, 10]).map stripCrLf :=
  ⟨(load_render_roundtrip ⟨0, 0, 80, 24, 0, [], 0⟩
      [104, 101, 108, 108, 111, 10] rfl rfl).2.2.2 0 (by decide) (by decide)
      (by decide),
    (load_render_roundtrip ⟨0, 0, 80, 24, 0, [], 0⟩
      [104, 101, 108, 108, 111, 10] rfl rfl).1⟩

theorem processKeys_fields (ks : List Int) :
    ∀ cfg cfg' : EditorConfig, processKeys cfg ks = some cfg' →
      cfg'.screencols = cfg.screencols ∧ cfg'.screenrows = cfg.screenrows := by
  induction ks with
  | nil =>
    intro cfg cfg' hp
    simp only [processKeys, Option.some.injEq] at hp
    subst hp
    exact ⟨rfl, rfl⟩
  | cons k ks ih =>
    intro cfg cfg' hp
    simp only [processKeys] at hp
    cases hk : editorProcessKeypress cfg k with
    | none => rw [hk] at hp; exact absurd hp (by simp)
    | some c2 =>
      rw [hk] at hp
      have hf := processKeypress_fields cfg k c2 hk
      obtain ⟨hc, hr⟩ := ih c2 cfg' hp
      exact ⟨hc.trans hf.1, hr.trans hf.2.1⟩

/-- C9 counterexample: the claim that both screen dimensions are positive
after a successful `initEditor` fails on the ioctl path, because
`getWindowSize` only rejects a zero `ws_col`: an ioctl report of
`ws_row = 0, ws_col = 80` is accepted and leaves `screenrows = 0`. -/
theorem window_size_counterexample :
    initEditor ⟨some (0, 80), []⟩ 0 = some ⟨0, 0, 80, 0, 0, [], 0⟩ ∧
      ¬(1 ≤ (⟨0, 0, 80, 0, 0, [], 0⟩ : EditorConfig).screenrows) := by
  decide

/-- C9 amended: `initEditor` stores whatever the environment reports,
with only `ws_col == 0` checked. On the ioctl path (ioctl succeeded with
`ws_col ≠ 0`), `screencols` equals the reported `ws_col` and is positive
while `screenrows` equals the reported `ws_row` unchecked (it may be
zero, as the counterexample shows). On the fallback path — taken both
when the ioctl fails and when it reports zero columns — `screenrows` and
`screencols` equal the two integers parsed from the cursor-position
reply, with no positivity check at all (the concrete conjunct shows a
reply of `ESC [ 0 ; 8 0 R` being accepted with `screenrows = 0`). No
later keystroke processing changes either screen dimension. -/
theorem window_size_amended :
    (∀ (env : WinEnv) (t r c : Nat) (cfg : EditorConfig),
      env.ioctlResult = some (r, c) → c ≠ 0 →
      initEditor env t = some cfg →
      cfg.screencols = (c : Int) ∧ 0 < cfg.screencols ∧
        cfg.screenrows = (r : Int)) ∧
    (∀ (env : WinEnv) (t : Nat) (rr cc : Int) (cfg : EditorConfig),
      env.ioctlResult = none →
      getCursorPosition env.replyInput = some (rr, cc) →
      initEditor env t = some cfg →
      cfg.screenrows = rr ∧ cfg.screencols = cc) ∧
    (∀ (env : WinEnv) (t r : Nat) (rr cc : Int) (cfg : EditorConfig),
      env.ioctlResult = some (r, 0) →
      getCursorPosition env.replyInput = some (rr, cc) →
      initEditor env t = some cfg →
      cfg.screenrows = rr ∧ cfg.screencols = cc) ∧
    initEditor ⟨none, [27, 91, 48, 59, 56, 48, 82]⟩ 0
      = some ⟨0, 0, 80, 0, 0, [], 0⟩ ∧
    (∀ (cfg : EditorConfig) (ks : List Int) (cfg' : EditorConfig),
      processKeys cfg ks = some cfg' →
      cfg'.screencols = cfg.screencols ∧
        cfg'.screenrows = cfg.screenrows) := by
  refine ⟨?_, ?_, ?_, by decide, ?_⟩
  · intro env t r c cfg hio hc hinit
    unfold initEditor getWindowSize at hinit
    rw [hio] at hinit
    simp only [hc, if_false, Option.some.injEq] at hinit
    subst hinit
    exact ⟨rfl, by dsimp only; omega, rfl⟩
  · intro env t rr cc cfg hio hgcp hinit
    unfold initEditor getWindowSize at hinit
    rw [hio, hgcp] at hinit
    simp only [Option.some.injEq] at hinit
    subst hinit
    exact ⟨rfl, rfl⟩
  · intro env t r rr cc cfg hio hgcp hinit
    unfold initEditor getWindowSize at hinit
    rw [hio, hgcp] at hinit
    simp only [Option.some.injEq, reduceIte] at hinit
    subst hinit
    exact ⟨rfl, rfl⟩
  · intro cfg ks cfg' hp
    exact processKeys_fields ks cfg cfg' hp

theorem window_size_amended_witness :
    ((⟨0, 0, 80, 24, 0, [], 5⟩ : EditorConfig).screencols = ((80 : Nat) : Int) ∧
      0 < (⟨0, 0, 80, 24, 0, [], 5⟩ : EditorConfig).screencols ∧
      (⟨0, 0, 80, 24, 0, [], 5⟩ : EditorConfig).screenrows = ((24 : Nat) : Int)) ∧
    ((⟨0, 0, 80, 24, 0, [], 0⟩ : EditorConfig).screenrows = (24 : Int) ∧
      (⟨0, 0, 80, 24, 0, [], 0⟩ : EditorConfig).screencols = (80 : Int)) :=
  ⟨window_size_amended.1 ⟨some (24, 80), []⟩ 5 24 80 ⟨0, 0, 80, 24, 0, [], 5⟩
      rfl (by decide) (by decide),
    window_size_amended.2.1 ⟨none, [27, 91, 43, 50, 52, 59, 32, 56, 48, 82]⟩
      0 24 80 ⟨0, 0, 80, 24, 0, [], 0⟩ rfl (by decide) (by decide)⟩

/-- C10: for every decoded token, `editorProcessKeypress` either
terminates the process (exactly on the Ctrl-Q token 0x11) or modifies at
most the cursor fields: the row count, the stored rows (hence every row's
length and bytes), both screen dimensions, and the saved terminal
attributes are unchanged by every keystroke. -/
theorem keypress_frame_effect (cfg : EditorConfig) (c : Int) :
    (editorProcessKeypress cfg c = none ↔ c = 17) ∧
      ∀ cfg', editorProcessKeypress cfg c = some cfg' →
        cfg'.numRows = cfg.numRows ∧ cfg'.row = cfg.row ∧
          cfg'.screencols = cfg.screencols ∧
          cfg'.screenrows = cfg.screenrows ∧
          cfg'.originalTermios = cfg.originalTermios := by
  constructor
  · constructor
    · intro h
      by_contra hc
      unfold editorProcessKeypress at h
      rw [if_neg hc] at h
      split_ifs at h
    · intro h
      subst h
      unfold editorProcessKeypress
      simp
  · intro cfg' h
    have hf := processKeypress_fields cfg c cfg' h
    exact ⟨hf.2.2.1, hf.2.2.2.1, hf.1, hf.2.1, hf.2.2.2.2⟩

theorem keypress_frame_effect_witness :
    (editorProcessKeypress ⟨0, 0, 80, 24, 0, [], 0⟩ ARROW_LEFT = none ↔
        ARROW_LEFT = 17) ∧
      ((⟨0, 0, 80, 24, 0, [], 0⟩ : EditorConfig).numRows
          = (⟨0, 0, 80, 24, 0, [], 0⟩ : EditorConfig).numRows ∧
        (⟨0, 0, 80, 24, 0, [], 0⟩ : EditorConfig).row
          = (⟨0, 0, 80, 24, 0, [], 0⟩ : EditorConfig).row ∧
        (⟨0, 0, 80, 24, 0, [], 0⟩ : EditorConfig).screencols
          = (⟨0, 0, 80, 24, 0, [], 0⟩ : EditorConfig).screencols ∧
        (⟨0, 0, 80, 24, 0, [], 0⟩ : EditorConfig).screenrows
          = (⟨0, 0, 80, 24, 0, [], 0⟩ : EditorConfig).screenrows ∧
        (⟨0, 0, 80, 24, 0, [], 0⟩ : EditorConfig).originalTermios
          = (⟨0, 0, 80, 24, 0, [], 0⟩ : EditorConfig).originalTermios) :=
  ⟨(keypress_frame_effect ⟨0, 0, 80, 24, 0, [], 0⟩ ARROW_LEFT).1,
    (keypress_frame_effect ⟨0, 0, 80, 24, 0, [], 0⟩ ARROW_LEFT).2
      ⟨0, 0, 80, 24, 0, [], 0⟩ (by decide)⟩

end Kilo
